import Mathlib

/-!
Verification of the Flam_canvas collaborative drawing server.

The development shallowly embeds the server-side code of the repository:
`src/server/drawing-state.js` (the `DrawingState` operation log),
`src/server/rooms.js` (the `RoomManager`), and the WebSocket message
handler of `src/server/server.js`.  JS `Map`s keyed by room id / user id
are embedded as insertion-ordered association lists, `Array.prototype.slice`
as `jsSliceTo`, and the per-connection handler as a pure function from
(manager state, connection state, inbound message) to
(new states, list of outbound sends).
-/

namespace FlamCanvas

section AssocMap

variable {κ : Type} {α : Type} [DecidableEq κ]

/-- `Map.get`: first binding of the key, if any. -/
def mapGet : List (κ × α) → κ → Option α
  | [], _ => none
  | (k', v) :: t, k => if k' = k then some v else mapGet t k

/-- `Map.set`: replace an existing binding in place, else append at the end
(JS `Map` keeps insertion order). -/
def mapSet : List (κ × α) → κ → α → List (κ × α)
  | [], k, v => [(k, v)]
  | (k', v') :: t, k, v => if k' = k then (k, v) :: t else (k', v') :: mapSet t k v

/-- `Map.delete`: remove the binding of the key. -/
def mapDelete : List (κ × α) → κ → List (κ × α)
  | [], _ => []
  | (k', v') :: t, k => if k' = k then t else (k', v') :: mapDelete t k

theorem mapGet_mapSet_self (l : List (κ × α)) (k : κ) (v : α) :
    mapGet (mapSet l k v) k = some v := by
  induction l with
  | nil => simp [mapGet, mapSet]
  | cons h t ih =>
    obtain ⟨k', v'⟩ := h
    by_cases hk : k' = k
    · simp [mapGet, mapSet, hk]
    · simp [mapGet, mapSet, hk, ih]

theorem mapGet_mapSet_ne (l : List (κ × α)) (k k' : κ) (v : α) (hne : k ≠ k') :
    mapGet (mapSet l k v) k' = mapGet l k' := by
  induction l with
  | nil => simp [mapGet, mapSet, hne]
  | cons h t ih =>
    obtain ⟨k₀, v₀⟩ := h
    by_cases hk : k₀ = k
    · subst hk; simp [mapGet, mapSet, hne]
    · simp only [mapSet, if_neg hk, mapGet]
      by_cases hk' : k₀ = k'
      · simp [hk']
      · simp [hk', ih]

theorem mapGet_mapDelete_ne (l : List (κ × α)) (k k' : κ) (hne : k ≠ k') :
    mapGet (mapDelete l k) k' = mapGet l k' := by
  induction l with
  | nil => simp [mapDelete]
  | cons h t ih =>
    obtain ⟨k₀, v₀⟩ := h
    by_cases hk : k₀ = k
    · subst hk
      simp [mapDelete, mapGet, hne]
    · simp only [mapDelete, if_neg hk, mapGet]
      by_cases hk' : k₀ = k'
      · simp [hk']
      · simp [hk', ih]

theorem mapGet_eq_none_of_not_mem (l : List (κ × α)) (k : κ)
    (h : k ∉ l.map Prod.fst) : mapGet l k = none := by
  induction l with
  | nil => rfl
  | cons hd t ih =>
    obtain ⟨k₀, v₀⟩ := hd
    simp only [List.map_cons, List.mem_cons, not_or] at h
    have hne : k₀ ≠ k := fun hh => h.1 hh.symm
    simp [mapGet, hne, ih h.2]

theorem mapGet_mapDelete_self (l : List (κ × α)) (k : κ)
    (hnd : (l.map Prod.fst).Nodup) : mapGet (mapDelete l k) k = none := by
  induction l with
  | nil => rfl
  | cons hd t ih =>
    obtain ⟨k₀, v₀⟩ := hd
    simp only [List.map_cons, List.nodup_cons] at hnd
    by_cases hk : k₀ = k
    · subst hk
      simp only [mapDelete, if_pos rfl]
      exact mapGet_eq_none_of_not_mem t k₀ hnd.1
    · simp [mapDelete, hk, mapGet, ih hnd.2]

theorem mapGet_mem (l : List (κ × α)) (k : κ) (v : α)
    (h : mapGet l k = some v) : (k, v) ∈ l := by
  induction l with
  | nil => simp [mapGet] at h
  | cons hd t ih =>
    obtain ⟨k₀, v₀⟩ := hd
    simp only [mapGet] at h
    split at h
    · next heq =>
      injection h with h'
      subst h'; subst heq
      exact List.mem_cons_self _ _
    · exact List.mem_cons_of_mem _ (ih h)

theorem mapGet_some_ne_nil (l : List (κ × α)) (k : κ) (v : α)
    (h : mapGet l k = some v) : l ≠ [] := by
  intro hnil; subst hnil; simp [mapGet] at h

end AssocMap

/-- JS `arr.slice(0, e)`: a negative end counts from the end of the array. -/
def jsSliceTo {α : Type} (l : List α) (e : Int) : List α :=
  if e < 0 then l.take ((l.length : Int) + e).toNat else l.take e.toNat

/-! ## `src/server/drawing-state.js` and the draw operation records

An operation record is exactly the object built in the `draw-start` /
`draw-move` / `draw-end` case of `src/server/server.js`: a message type tag,
the drawing user, tool/color/width style, a SINGLE point `(x, y)`, a
timestamp, and (for `draw-end` only, set after commit) the log index. -/

structure Operation where
  optype : String
  userId : Option Nat
  tool : String
  color : String
  lineWidth : Int
  x : Int
  y : Int
  timestamp : Nat
  operationId : Option Int
deriving Repr, DecidableEq

structure DrawingState where
  operations : List Operation
  currentIndex : Int
deriving Repr, DecidableEq

/-- `new DrawingState()`. -/
def DrawingState.init : DrawingState := ⟨[], -1⟩

/-- `getVisibleOperations()`: `this.operations.slice(0, this.currentIndex + 1)`. -/
def DrawingState.getVisibleOperations (s : DrawingState) : List Operation :=
  jsSliceTo s.operations (s.currentIndex + 1)

/-- `addOperation(operation)`: truncate the redo tail, push, advance the
cursor, return the new cursor. -/
def DrawingState.addOperation (s : DrawingState) (op : Operation) :
    Int × DrawingState :=
  let ops := jsSliceTo s.operations (s.currentIndex + 1) ++ [op]
  (s.currentIndex + 1, ⟨ops, s.currentIndex + 1⟩)

/-- `undo()`: `some` is the `success: true` payload (new index, visible
operations); `none` is `{ success: false }`, which leaves the state alone. -/
def DrawingState.undo (s : DrawingState) :
    Option (Int × List Operation) × DrawingState :=
  if 0 ≤ s.currentIndex then
    let s' : DrawingState := ⟨s.operations, s.currentIndex - 1⟩
    (some (s'.currentIndex, s'.getVisibleOperations), s')
  else (none, s)

/-- `redo()`. -/
def DrawingState.redo (s : DrawingState) :
    Option (Int × List Operation) × DrawingState :=
  if s.currentIndex < (s.operations.length : Int) - 1 then
    let s' : DrawingState := ⟨s.operations, s.currentIndex + 1⟩
    (some (s'.currentIndex, s'.getVisibleOperations), s')
  else (none, s)

/-- `clear()`. -/
def DrawingState.clear (_ : DrawingState) : DrawingState := ⟨[], -1⟩

/-! ## `src/server/rooms.js` -/

structure UserInfo where
  id : Nat
  username : String
  color : String
deriving Repr, DecidableEq

structure User where
  id : Nat
  username : String
  color : String
  ws : Nat
  cursor : Option (Int × Int)
deriving Repr, DecidableEq

structure Room where
  id : String
  users : List (Nat × User)
  drawingState : DrawingState
  nextUserId : Nat
deriving Repr, DecidableEq

def userColors : List String :=
  ["#FF6B6B", "#4ECDC4", "#45B7D1", "#FFA07A",
   "#98D8C8", "#F7DC6F", "#BB8FCE", "#85C1E2"]

structure RoomManager where
  rooms : List (String × Room)
  colorIndex : Nat
deriving Repr, DecidableEq

def RoomManager.init : RoomManager := ⟨[], 0⟩

def RoomManager.getOrCreateRoom (rm : RoomManager) (roomId : String) :
    Room × RoomManager :=
  match mapGet rm.rooms roomId with
  | some r => (r, rm)
  | none =>
    let r : Room := ⟨roomId, [], DrawingState.init, 1⟩
    (r, ⟨mapSet rm.rooms roomId r, rm.colorIndex⟩)

/-- `username || defaultName`: in JS the empty string is falsy. -/
def defaultedName (username : Option String) (userId : Nat) : String :=
  match username with
  | some s => if s = "" then "User " ++ toString userId else s
  | none => "User " ++ toString userId

def RoomManager.addUser (rm : RoomManager) (roomId : String) (ws : Nat)
    (username : Option String) : (User × Room) × RoomManager :=
  let (room, rm') := rm.getOrCreateRoom roomId
  let userId := room.nextUserId
  let color := userColors.getD (rm'.colorIndex % userColors.length) ""
  let user : User := ⟨userId, defaultedName username userId, color, ws, none⟩
  let room' : Room :=
    { room with users := mapSet room.users userId user, nextUserId := userId + 1 }
  ((user, room'), ⟨mapSet rm'.rooms roomId room', rm'.colorIndex + 1⟩)

def RoomManager.removeUser (rm : RoomManager) (roomId : String) (userId : Nat) :
    Option Room × RoomManager :=
  match mapGet rm.rooms roomId with
  | none => (none, rm)
  | some room =>
    let users' := mapDelete room.users userId
    if users'.length = 0 then
      (none, ⟨mapDelete rm.rooms roomId, rm.colorIndex⟩)
    else
      let room' : Room := { room with users := users' }
      (some room', ⟨mapSet rm.rooms roomId room', rm.colorIndex⟩)

def RoomManager.updateUserCursor (rm : RoomManager) (roomId : Option String)
    (userId : Option Nat) (c : Int × Int) : Bool × RoomManager :=
  match roomId with
  | none => (false, rm)
  | some rid =>
    match mapGet rm.rooms rid with
    | none => (false, rm)
    | some room =>
      match userId with
      | none => (false, rm)
      | some uid =>
        match mapGet room.users uid with
        | none => (false, rm)
        | some u =>
          let room' : Room :=
            { room with users := mapSet room.users uid { u with cursor := some c } }
          (true, ⟨mapSet rm.rooms rid room', rm.colorIndex⟩)

def getUserList (room : Room) : List UserInfo :=
  room.users.map (fun p => ⟨p.2.id, p.2.username, p.2.color⟩)

/-- One fan-out pass of `broadcastToRoom`'s `forEach`.  `readyState` gives each
socket's state (`1` = open), `sendFails` says whether `ws.send` throws on that
socket.  The result is the list of `(socket, message)` deliveries that actually
happened, and a flag that is `true` when a send threw: the JS `forEach` has no
per-recipient `try`/`catch`, so the first throwing send aborts the whole
iteration and the exception escapes `broadcastToRoom`. -/
def sendAll {α : Type} (readyState : Nat → Nat) (sendFails : Nat → Bool)
    (excludeUserId : Option Nat) (msg : α) :
    List (Nat × User) → List (Nat × α) × Bool
  | [] => ([], false)
  | (uid, u) :: rest =>
    if some uid ≠ excludeUserId ∧ readyState u.ws = 1 then
      if sendFails u.ws then ([], true)
      else
        let (s, thrown) := sendAll readyState sendFails excludeUserId msg rest
        ((u.ws, msg) :: s, thrown)
    else sendAll readyState sendFails excludeUserId msg rest

def RoomManager.broadcastToRoom {α : Type} (rm : RoomManager)
    (readyState : Nat → Nat) (sendFails : Nat → Bool) (roomId : Option String)
    (msg : α) (excludeUserId : Option Nat) : List (Nat × α) × Bool :=
  match roomId with
  | none => ([], false)
  | some rid =>
    match mapGet rm.rooms rid with
    | none => ([], false)
    | some room => sendAll readyState sendFails excludeUserId msg room.users

/-- The socket sends assumed reliable: used for the server-level model, whose
claims are about what is sent, not about transport failures. -/
def noFail : Nat → Bool := fun _ => false

/-! ## `src/server/server.js`: the per-connection message handler -/

inductive ServerMsg where
  | joined (userId : Nat) (color : String) (username : String)
      (operations : List Operation) (users : List UserInfo)
  | userJoined (user : UserInfo) (users : List UserInfo)
  | draw (operation : Operation)
  | cursorUpdate (userId : Option Nat) (x y : Int)
  | undoState (currentIndex : Int) (operations : List Operation)
  | redoState (currentIndex : Int) (operations : List Operation)
  | clearCanvas
  | userLeft (userId : Nat) (users : List UserInfo)
deriving Repr, DecidableEq

inductive ClientMsg where
  | join (roomId : Option String) (username : Option String)
  | drawStart (x y : Int) (tool color : String) (lineWidth : Int)
  | drawMove (x y : Int) (tool color : String) (lineWidth : Int)
  | drawEnd (x y : Int) (tool color : String) (lineWidth : Int)
  | cursorMove (x y : Int)
  | undo
  | redo
  | clear
deriving Repr, DecidableEq

/-- The per-connection closure variables `currentUserId` / `currentRoomId`. -/
structure ConnState where
  currentUserId : Option Nat
  currentRoomId : Option String
deriving Repr, DecidableEq

/-- The shared body of the `draw-start` / `draw-move` / `draw-end` cases.
Only `draw-end` commits to the log; the committed record is the same single
object that is broadcast, with `operationId` set to the index returned by
`addOperation`. -/
def handleDraw (readyState : Nat → Nat) (rm : RoomManager) (conn : ConnState)
    (msgType : String) (isEnd : Bool) (x y : Int) (tool color : String)
    (lineWidth : Int) (now : Nat) :
    RoomManager × ConnState × List (Nat × ServerMsg) :=
  match conn.currentRoomId with
  | none => (rm, conn, [])
  | some rid =>
    match mapGet rm.rooms rid with
    | none => (rm, conn, [])
    | some room =>
      let op0 : Operation :=
        ⟨msgType, conn.currentUserId, tool, color, lineWidth, x, y, now, none⟩
      let (rm', op) :=
        if isEnd then
          let op : Operation :=
            { op0 with operationId := some (room.drawingState.currentIndex + 1) }
          let ds' := (room.drawingState.addOperation op).2
          let room' : Room := { room with drawingState := ds' }
          ((⟨mapSet rm.rooms rid room', rm.colorIndex⟩ : RoomManager), op)
        else (rm, op0)
      let (bsends, _) := rm'.broadcastToRoom readyState noFail (some rid)
        (ServerMsg.draw op) conn.currentUserId
      (rm', conn, bsends)

def handleMessage (readyState : Nat → Nat) (rm : RoomManager) (conn : ConnState)
    (ws : Nat) (msg : ClientMsg) (now : Nat) :
    RoomManager × ConnState × List (Nat × ServerMsg) :=
  match msg with
  | .join roomId username =>
    let rid :=
      match roomId with
      | some s => if s = "" then "default" else s
      | none => "default"
    let ((user, room), rm') := rm.addUser rid ws username
    let conn' : ConnState := ⟨some user.id, some rid⟩
    let selfMsg : ServerMsg :=
      .joined user.id user.color user.username
        room.drawingState.getVisibleOperations (getUserList room)
    let (bsends, _) := rm'.broadcastToRoom readyState noFail (some rid)
      (ServerMsg.userJoined ⟨user.id, user.username, user.color⟩ (getUserList room))
      (some user.id)
    (rm', conn', (ws, selfMsg) :: bsends)
  | .drawStart x y tool color lineWidth =>
    handleDraw readyState rm conn "draw-start" false x y tool color lineWidth now
  | .drawMove x y tool color lineWidth =>
    handleDraw readyState rm conn "draw-move" false x y tool color lineWidth now
  | .drawEnd x y tool color lineWidth =>
    handleDraw readyState rm conn "draw-end" true x y tool color lineWidth now
  | .cursorMove x y =>
    let (_, rm') := rm.updateUserCursor conn.currentRoomId conn.currentUserId (x, y)
    let (bsends, _) := rm'.broadcastToRoom readyState noFail conn.currentRoomId
      (ServerMsg.cursorUpdate conn.currentUserId x y) conn.currentUserId
    (rm', conn, bsends)
  | .undo =>
    match conn.currentRoomId with
    | none => (rm, conn, [])
    | some rid =>
      match mapGet rm.rooms rid with
      | none => (rm, conn, [])
      | some room =>
        match room.drawingState.undo with
        | (none, _) => (rm, conn, [])
        | (some (ci, ops), ds') =>
          let room' : Room := { room with drawingState := ds' }
          let rm' : RoomManager := ⟨mapSet rm.rooms rid room', rm.colorIndex⟩
          let m : ServerMsg := .undoState ci ops
          let (bsends, _) := rm'.broadcastToRoom readyState noFail (some rid) m none
          (rm', conn, bsends ++ [(ws, m)])
  | .redo =>
    match conn.currentRoomId with
    | none => (rm, conn, [])
    | some rid =>
      match mapGet rm.rooms rid with
      | none => (rm, conn, [])
      | some room =>
        match room.drawingState.redo with
        | (none, _) => (rm, conn, [])
        | (some (ci, ops), ds') =>
          let room' : Room := { room with drawingState := ds' }
          let rm' : RoomManager := ⟨mapSet rm.rooms rid room', rm.colorIndex⟩
          let m : ServerMsg := .redoState ci ops
          let (bsends, _) := rm'.broadcastToRoom readyState noFail (some rid) m none
          (rm', conn, bsends ++ [(ws, m)])
  | .clear =>
    match conn.currentRoomId with
    | none => (rm, conn, [])
    | some rid =>
      match mapGet rm.rooms rid with
      | none => (rm, conn, [])
      | some room =>
        let room' : Room := { room with drawingState := room.drawingState.clear }
        let rm' : RoomManager := ⟨mapSet rm.rooms rid room', rm.colorIndex⟩
        let (bsends, _) :=
          rm'.broadcastToRoom readyState noFail (some rid) ServerMsg.clearCanvas none
        (rm', conn, bsends ++ [(ws, ServerMsg.clearCanvas)])

/-- The `ws.on('close', ...)` handler. -/
def handleClose (readyState : Nat → Nat) (rm : RoomManager) (conn : ConnState) :
    RoomManager × List (Nat × ServerMsg) :=
  match conn.currentRoomId, conn.currentUserId with
  | some rid, some uid =>
    let (roomOpt, rm') := rm.removeUser rid uid
    match roomOpt with
    | some room =>
      let (bsends, _) := rm'.broadcastToRoom readyState noFail (some rid)
        (ServerMsg.userLeft uid (getUserList room)) none
      (rm', bsends)
    | none => (rm', [])
  | _, _ => (rm, [])

/-! ## Whole-server scenarios -/

inductive Event where
  | connect (ws : Nat)
  | message (ws : Nat) (msg : ClientMsg) (now : Nat)
  | closeConn (ws : Nat)

structure World where
  rm : RoomManager
  conns : List (Nat × ConnState)
  sends : List (Nat × ServerMsg)
deriving Repr, DecidableEq

def World.init : World := ⟨RoomManager.init, [], []⟩

def stepWorld (readyState : Nat → Nat) (w : World) (e : Event) : World :=
  match e with
  | .connect ws => { w with conns := mapSet w.conns ws ⟨none, none⟩ }
  | .message ws msg now =>
    match mapGet w.conns ws with
    | none => w
    | some conn =>
      let (rm', conn', sends) := handleMessage readyState w.rm conn ws msg now
      ⟨rm', mapSet w.conns ws conn', w.sends ++ sends⟩
  | .closeConn ws =>
    match mapGet w.conns ws with
    | none => w
    | some conn =>
      let (rm', sends) := handleClose readyState w.rm conn
      ⟨rm', mapDelete w.conns ws, w.sends ++ sends⟩

def runWorld (readyState : Nat → Nat) (events : List Event) : World :=
  events.foldl (stepWorld readyState) World.init

/-- Every socket open. -/
def allOpen : Nat → Nat := fun _ => 1

/-! ## Concrete scenarios

Participant A (socket 1) joins room "r1" and draws one three-point gesture:
begin at (0,0), continue at (5,5), finish at (10,10), brush / "black" /
width 3. -/

def gestureEvents : List Event :=
  [.connect 1,
   .message 1 (.join (some "r1") (some "A")) 100,
   .message 1 (.drawStart 0 0 "brush" "black" 3) 101,
   .message 1 (.drawMove 5 5 "brush" "black" 3) 102,
   .message 1 (.drawEnd 10 10 "brush" "black" 3) 103]

/-- The single record the server commits for the whole gesture: only the
`draw-end` message's terminal point `(10, 10)`. -/
def endOp : Operation :=
  ⟨"draw-end", some 1, "brush", "black", 3, 10, 10, 103, some 0⟩

def uAInfo : UserInfo := ⟨1, "A", "#FF6B6B"⟩

def uBInfo : UserInfo := ⟨2, "B", "#4ECDC4"⟩

/-- After A's gesture, participant B (socket 2) joins "r1", then A sends
`undo` and then `redo`. -/
def abEvents : List Event :=
  gestureEvents ++
  [.connect 2,
   .message 2 (.join (some "r1") (some "B")) 104,
   .message 1 .undo 105,
   .message 1 .redo 106]

/-! ## Iterated undo / redo -/

/-- One `undo()` call, keeping only whether it succeeded and the new state. -/
def undoStep (s : DrawingState) : Option DrawingState :=
  match s.undo with
  | (some _, s') => some s'
  | (none, _) => none

def redoStep (s : DrawingState) : Option DrawingState :=
  match s.redo with
  | (some _, s') => some s'
  | (none, _) => none

/-- `m` undo calls in sequence; `none` as soon as one fails. -/
def iterUndo : Nat → DrawingState → Option DrawingState
  | 0, s => some s
  | n + 1, s => (undoStep s).bind (iterUndo n)

def iterRedo : Nat → DrawingState → Option DrawingState
  | 0, s => some s
  | n + 1, s => (redoStep s).bind (iterRedo n)

theorem iterRedo_succ_right (n : Nat) (s : DrawingState) :
    iterRedo (n + 1) s = (iterRedo n s).bind redoStep := by
  induction n generalizing s with
  | zero => cases h : redoStep s <;> simp [iterRedo, h]
  | succ n ih =>
    cases h : redoStep s with
    | none => simp [iterRedo, h]
    | some t =>
      calc iterRedo (n + 2) s = iterRedo (n + 1) t := by simp [iterRedo, h]
        _ = (iterRedo n t).bind redoStep := ih t
        _ = (iterRedo (n + 1) s).bind redoStep := by simp [iterRedo, h]

theorem iterUndo_then_iterRedo (m : Nat) (ops : List Operation) (ci : Int)
    (h0 : -1 ≤ ci) (h1 : ci ≤ (ops.length : Int) - 1) (hm : (m : Int) ≤ ci + 1) :
    ∃ u, iterUndo m ⟨ops, ci⟩ = some u ∧ iterRedo m u = some ⟨ops, ci⟩ := by
  induction m generalizing ci with
  | zero => exact ⟨⟨ops, ci⟩, rfl, rfl⟩
  | succ m ih =>
    have hci : 0 ≤ ci := by
      have : ((m + 1 : Nat) : Int) = (m : Int) + 1 := by push_cast; ring
      omega
    have hstep : undoStep ⟨ops, ci⟩ = some ⟨ops, ci - 1⟩ := by
      simp [undoStep, DrawingState.undo, hci]
    have hmm : (m : Int) ≤ (ci - 1) + 1 := by
      have : ((m + 1 : Nat) : Int) = (m : Int) + 1 := by push_cast; ring
      omega
    obtain ⟨u, hu, hr⟩ := ih (ci - 1) (by omega) (by omega) hmm
    refine ⟨u, ?_, ?_⟩
    · simp [iterUndo, hstep, hu]
    · rw [iterRedo_succ_right, hr]
      have : redoStep ⟨ops, ci - 1⟩ = some ⟨ops, ci⟩ := by
        simp only [redoStep, DrawingState.redo]
        rw [if_pos (by omega)]
        norm_num
      simp [this]

/-! ## Claims -/

/-- Claim C1: `addOperation` on a log of length `n` with cursor `k` stores
exactly the old visible prefix `0..k` followed by the new stroke; when
`k < n - 1` (a redo tail exists) the tail `k+1..n-1` is dropped, the new
length is `k + 2`, the cursor becomes `k + 1`, and that index is returned. -/
theorem addOperation_truncates_redo_tail (s : DrawingState) (op : Operation)
    (h0 : -1 ≤ s.currentIndex) :
    (s.addOperation op).2.operations = s.getVisibleOperations ++ [op] ∧
    (s.addOperation op).2.currentIndex = s.currentIndex + 1 ∧
    (s.addOperation op).1 = s.currentIndex + 1 ∧
    (s.currentIndex < (s.operations.length : Int) - 1 →
      ((s.addOperation op).2.operations.length : Int) = s.currentIndex + 2) := by
  refine ⟨rfl, rfl, rfl, fun h1 => ?_⟩
  simp only [DrawingState.addOperation, jsSliceTo, List.length_append,
    List.length_take]
  rw [if_neg (by omega)]
  simp only [List.length_append, List.length_take, List.length_singleton]
  omega

/-- Witness for C1 at a concrete log: three strokes, cursor at index 0. -/
theorem addOperation_truncates_redo_tail_witness :
    (-1 ≤ (⟨[endOp, endOp, endOp], 0⟩ : DrawingState).currentIndex) ∧
    ((⟨[endOp, endOp, endOp], 0⟩ : DrawingState).addOperation endOp).2.operations
        = (⟨[endOp, endOp, endOp], 0⟩ : DrawingState).getVisibleOperations ++ [endOp] ∧
      ((⟨[endOp, endOp, endOp], 0⟩ : DrawingState).addOperation endOp).2.currentIndex
        = (⟨[endOp, endOp, endOp], 0⟩ : DrawingState).currentIndex + 1 ∧
      ((⟨[endOp, endOp, endOp], 0⟩ : DrawingState).addOperation endOp).1
        = (⟨[endOp, endOp, endOp], 0⟩ : DrawingState).currentIndex + 1 ∧
      ((⟨[endOp, endOp, endOp], 0⟩ : DrawingState).currentIndex
          < ((⟨[endOp, endOp, endOp], 0⟩ : DrawingState).operations.length : Int) - 1 →
        (((⟨[endOp, endOp, endOp], 0⟩ : DrawingState).addOperation endOp).2.operations.length : Int)
          = (⟨[endOp, endOp, endOp], 0⟩ : DrawingState).currentIndex + 2) :=
  ⟨by decide, addOperation_truncates_redo_tail ⟨[endOp, endOp, endOp], 0⟩ endOp (by decide)⟩

/-- Claim C2 (refuted; the code diverges from its own design doc): after a
begin -> continue -> finish gesture (k = 1 continues, so k + 2 = 3 points
were produced), the room's log does hold exactly one committed record, but
that record carries only the terminal point `(10, 10)` of the `draw-end`
message — the `Operation` record has a single `x, y` pair and the server never
accumulates the earlier points of the gesture. -/
theorem gesture_commits_single_point_record :
    (mapGet (runWorld allOpen gestureEvents).rm.rooms "r1").map
      (fun r => r.drawingState.getVisibleOperations) = some [endOp] := by
  rfl

/-- Claim C3 (refuted in its points clause): the complete send trace of the
A/B scenario.  B's welcome contains exactly one visible stroke record, but
with only the final point `(10, 10)` instead of `[(0,0), (5,5), (10,10)]`;
the undo part (both A and B told `currentIndex = -1`, empty visible list) and
the redo part (both told the original single-record sequence) hold, with A
receiving each state message twice (broadcast plus direct send). -/
theorem ab_scenario_send_trace :
    (runWorld allOpen abEvents).sends =
      [(1, .joined 1 "#FF6B6B" "A" [] [uAInfo]),
       (2, .joined 2 "#4ECDC4" "B" [endOp] [uAInfo, uBInfo]),
       (1, .userJoined uBInfo [uAInfo, uBInfo]),
       (1, .undoState (-1) []),
       (2, .undoState (-1) []),
       (1, .undoState (-1) []),
       (1, .redoState 0 [endOp]),
       (2, .redoState 0 [endOp]),
       (1, .redoState 0 [endOp])] := by
  rfl

/-- Claim C4: from any log state satisfying the cursor invariant, `m` undo
calls (with `m` at most the visible count `currentIndex + 1`) all succeed,
and the following `m` redo calls all succeed and restore the original visible
sequence (in fact the exact state). -/
theorem undo_redo_inverse (s : DrawingState) (m : Nat)
    (h0 : -1 ≤ s.currentIndex)
    (h1 : s.currentIndex ≤ (s.operations.length : Int) - 1)
    (hm : (m : Int) ≤ s.currentIndex + 1) :
    ∃ u, iterUndo m s = some u ∧ ∃ t, iterRedo m u = some t ∧
      t.getVisibleOperations = s.getVisibleOperations := by
  obtain ⟨u, hu, hr⟩ := iterUndo_then_iterRedo m s.operations s.currentIndex h0 h1 hm
  exact ⟨u, hu, s, hr, rfl⟩

/-- Witness for C4: two committed strokes, both undone and redone. -/
theorem undo_redo_inverse_witness :
    (-1 ≤ (⟨[endOp, endOp], 1⟩ : DrawingState).currentIndex ∧
     (⟨[endOp, endOp], 1⟩ : DrawingState).currentIndex
        ≤ (((⟨[endOp, endOp], 1⟩ : DrawingState).operations.length : Int)) - 1 ∧
     ((2 : Nat) : Int) ≤ (⟨[endOp, endOp], 1⟩ : DrawingState).currentIndex + 1) ∧
    (∃ u, iterUndo 2 ⟨[endOp, endOp], 1⟩ = some u ∧ ∃ t, iterRedo 2 u = some t ∧
      t.getVisibleOperations = (⟨[endOp, endOp], 1⟩ : DrawingState).getVisibleOperations) :=
  ⟨⟨by decide, by decide, by decide⟩,
   undo_redo_inverse ⟨[endOp, endOp], 1⟩ 2 (by decide) (by decide) (by decide)⟩

/-- Claim C5: `undo()` with the cursor at -1 fails and leaves the state
unchanged, `redo()` with the cursor at `length - 1` likewise, and in either
failure case the server's `undo` / `redo` message handler changes nothing and
sends nothing to anybody. -/
theorem undo_floor_redo_ceiling_fail_cleanly (readyState : Nat → Nat)
    (rm : RoomManager) (conn : ConnState) (ws now : Nat) (rid : String)
    (room : Room)
    (hconn : conn.currentRoomId = some rid)
    (hroom : mapGet rm.rooms rid = some room) :
    (room.drawingState.currentIndex = -1 →
      room.drawingState.undo = (none, room.drawingState) ∧
      handleMessage readyState rm conn ws .undo now = (rm, conn, [])) ∧
    (room.drawingState.currentIndex = (room.drawingState.operations.length : Int) - 1 →
      room.drawingState.redo = (none, room.drawingState) ∧
      handleMessage readyState rm conn ws .redo now = (rm, conn, [])) := by
  constructor
  · intro hci
    have hu : room.drawingState.undo = (none, room.drawingState) := by
      simp [DrawingState.undo, hci]
    exact ⟨hu, by simp [handleMessage, hconn, hroom, hu]⟩
  · intro hci
    have hr : room.drawingState.redo = (none, room.drawingState) := by
      simp [DrawingState.redo, hci]
    exact ⟨hr, by simp [handleMessage, hconn, hroom, hr]⟩

def c5room : Room := ⟨"r", [(1, ⟨1, "A", "#FF6B6B", 1, none⟩)], ⟨[], -1⟩, 2⟩

def c5rm : RoomManager := ⟨[("r", c5room)], 1⟩

def c5conn : ConnState := ⟨some 1, some "r"⟩

/-- Witness for C5 on an empty log, where both the undo floor and the redo
ceiling conditions hold at once. -/
theorem undo_floor_redo_ceiling_fail_cleanly_witness :
    (c5conn.currentRoomId = some "r" ∧ mapGet c5rm.rooms "r" = some c5room) ∧
    ((c5room.drawingState.currentIndex = -1 →
      c5room.drawingState.undo = (none, c5room.drawingState) ∧
      handleMessage allOpen c5rm c5conn 1 .undo 0 = (c5rm, c5conn, [])) ∧
    (c5room.drawingState.currentIndex = (c5room.drawingState.operations.length : Int) - 1 →
      c5room.drawingState.redo = (none, c5room.drawingState) ∧
      handleMessage allOpen c5rm c5conn 1 .redo 0 = (c5rm, c5conn, []))) :=
  ⟨⟨rfl, rfl⟩,
   undo_floor_redo_ceiling_fail_cleanly allOpen c5rm c5conn 1 0 "r" c5room rfl rfl⟩

/-- The log's cursor invariant, in the claim's own clarified form:
`-1 ≤ currentIndex ≤ length - 1` over the integers (so an empty log forces
`currentIndex = -1`). -/
def LogInv (s : DrawingState) : Prop :=
  -1 ≤ s.currentIndex ∧ s.currentIndex ≤ (s.operations.length : Int) - 1

/-- Claim C6: the invariant holds for a fresh log, is preserved by
`addOperation`, `undo`, `redo` and `clear`, implies the claim's bound
`-1 ≤ currentIndex < max(length, 1)`, and under it `getVisibleOperations`
is exactly the prefix of the stored strokes up to the cursor inclusive. -/
theorem log_cursor_invariant :
    LogInv DrawingState.init ∧
    (∀ s op, LogInv s → LogInv (s.addOperation op).2) ∧
    (∀ s, LogInv s → LogInv (s.undo).2) ∧
    (∀ s, LogInv s → LogInv (s.redo).2) ∧
    (∀ s, LogInv s → LogInv s.clear) ∧
    (∀ s, LogInv s →
      -1 ≤ s.currentIndex ∧ s.currentIndex < max (s.operations.length : Int) 1) ∧
    (∀ s, LogInv s →
      s.getVisibleOperations = s.operations.take (s.currentIndex + 1).toNat) := by
  refine ⟨⟨by norm_num [DrawingState.init], by norm_num [DrawingState.init]⟩,
    ?_, ?_, ?_, ?_, ?_, ?_⟩
  · rintro ⟨ops, ci⟩ op ⟨ha, hb⟩
    simp only [DrawingState.addOperation, LogInv, jsSliceTo] at *
    rw [if_neg (by omega)]
    simp only [List.length_append, List.length_take, List.length_singleton]
    omega
  · rintro ⟨ops, ci⟩ ⟨ha, hb⟩
    dsimp only at ha hb
    by_cases h : 0 ≤ ci
    · have hu : (DrawingState.undo ⟨ops, ci⟩).2 = ⟨ops, ci - 1⟩ := by
        simp [DrawingState.undo, h]
      rw [hu]
      refine ⟨?_, ?_⟩
      · show -1 ≤ ci - 1
        omega
      · show ci - 1 ≤ (ops.length : Int) - 1
        omega
    · have hu : (DrawingState.undo ⟨ops, ci⟩).2 = ⟨ops, ci⟩ := by
        simp [DrawingState.undo, h]
      rw [hu]
      exact ⟨ha, hb⟩
  · rintro ⟨ops, ci⟩ ⟨ha, hb⟩
    dsimp only at ha hb
    by_cases h : ci < (ops.length : Int) - 1
    · have hr : (DrawingState.redo ⟨ops, ci⟩).2 = ⟨ops, ci + 1⟩ := by
        simp only [DrawingState.redo]
        rw [if_pos (by exact_mod_cast h)]
      rw [hr]
      refine ⟨?_, ?_⟩
      · show -1 ≤ ci + 1
        omega
      · show ci + 1 ≤ (ops.length : Int) - 1
        omega
    · have hr : (DrawingState.redo ⟨ops, ci⟩).2 = ⟨ops, ci⟩ := by
        simp only [DrawingState.redo]
        rw [if_neg (by exact_mod_cast h)]
      rw [hr]
      exact ⟨ha, hb⟩
  · rintro ⟨ops, ci⟩ ⟨ha, hb⟩
    simp [LogInv, DrawingState.clear]
  · rintro ⟨ops, ci⟩ ⟨ha, hb⟩
    have ha' : -1 ≤ ci := ha
    have hb' : ci ≤ (ops.length : Int) - 1 := hb
    exact ⟨ha', show ci < max (ops.length : Int) 1 by omega⟩
  · rintro ⟨ops, ci⟩ ⟨ha, hb⟩
    have ha' : -1 ≤ ci := ha
    show jsSliceTo ops (ci + 1) = ops.take (ci + 1).toNat
    simp only [jsSliceTo]
    rw [if_neg (by omega)]

/-- Witness for C6: the invariant at a one-stroke log, preserved by a commit. -/
theorem log_cursor_invariant_witness :
    LogInv (⟨[endOp], 0⟩ : DrawingState) ∧
    LogInv ((⟨[endOp], 0⟩ : DrawingState).addOperation endOp).2 :=
  ⟨⟨by decide, by decide⟩,
   log_cursor_invariant.2.1 ⟨[endOp], 0⟩ endOp ⟨by decide, by decide⟩⟩

/-- The deliveries `broadcastToRoom` performs when no send throws: one per
participant that is not excluded and whose socket is open, in insertion
order. -/
def eligibleSends {α : Type} (readyState : Nat → Nat) (ex : Option Nat) (msg : α)
    (users : List (Nat × User)) : List (Nat × α) :=
  (users.filter (fun p => decide (some p.1 ≠ ex ∧ readyState p.2.ws = 1))).map
    (fun p => (p.2.ws, msg))

theorem sendAll_no_failure {α : Type} (readyState : Nat → Nat)
    (sendFails : Nat → Bool) (ex : Option Nat) (msg : α)
    (users : List (Nat × User))
    (h : ∀ p ∈ users, sendFails p.2.ws = false) :
    sendAll readyState sendFails ex msg users
      = (eligibleSends readyState ex msg users, false) := by
  induction users with
  | nil => rfl
  | cons hd t ih =>
    obtain ⟨uid, u⟩ := hd
    have hhd : sendFails u.ws = false := h (uid, u) (List.mem_cons_self _ _)
    have ht : ∀ p ∈ t, sendFails p.2.ws = false :=
      fun p hp => h p (List.mem_cons_of_mem _ hp)
    by_cases hc : some uid ≠ ex ∧ readyState u.ws = 1
    · simp [sendAll, hc, hhd, ih ht, eligibleSends]
    · simp [sendAll, hc, ih ht, eligibleSends]

theorem sendAll_failure_aborts {α : Type} (readyState : Nat → Nat)
    (sendFails : Nat → Bool) (ex : Option Nat) (msg : α)
    (pre post : List (Nat × User)) (k : Nat) (u : User)
    (hpre : ∀ p ∈ pre, sendFails p.2.ws = false)
    (hex : some k ≠ ex) (hopen : readyState u.ws = 1)
    (hfail : sendFails u.ws = true) :
    sendAll readyState sendFails ex msg (pre ++ (k, u) :: post)
      = (eligibleSends readyState ex msg pre, true) := by
  induction pre with
  | nil => simp [sendAll, hex, hopen, hfail, eligibleSends]
  | cons hd t ih =>
    obtain ⟨k₀, u₀⟩ := hd
    have hhd : sendFails u₀.ws = false := hpre (k₀, u₀) (List.mem_cons_self _ _)
    have ht : ∀ p ∈ t, sendFails p.2.ws = false :=
      fun p hp => hpre p (List.mem_cons_of_mem _ hp)
    by_cases hc : some k₀ ≠ ex ∧ readyState u₀.ws = 1
    · simp [sendAll, hc, hhd, ih ht, eligibleSends]
    · simp [sendAll, hc, ih ht, eligibleSends]

def c7u1 : User := ⟨1, "A", "#FF6B6B", 10, none⟩

def c7u2 : User := ⟨2, "B", "#4ECDC4", 20, none⟩

def c7room : Room := ⟨"r", [(1, c7u1), (2, c7u2)], DrawingState.init, 3⟩

def c7rm : RoomManager := ⟨[("r", c7room)], 2⟩

/-- Socket 10 (the first participant's) throws on `send`. -/
def c7fails : Nat → Bool := fun w => w == 10

/-- Claim C7 counterexample: a room with two open participants where the send
to the first (socket 10) throws.  `broadcastToRoom` delivers nothing at all —
in particular nothing to the second, open, non-excluded participant on socket
20, who would have been delivered to had no send failed — and the exception
escapes the call (the `true` component): the `forEach` body has no
per-recipient catch. -/
theorem broadcast_failure_not_isolated :
    c7rm.broadcastToRoom allOpen c7fails (some "r") ServerMsg.clearCanvas none
      = ([], true) ∧
    eligibleSends allOpen none ServerMsg.clearCanvas c7room.users
      = [(10, ServerMsg.clearCanvas), (20, ServerMsg.clearCanvas)] :=
  ⟨rfl, rfl⟩

/-- Claim C7 as amended: connections not currently open are skipped and the
excluded participant receives nothing — when no send throws, the broadcast
delivers to exactly the open, non-excluded participants and returns normally;
but a throwing send aborts the iteration, so participants after the failing
one receive nothing, and the exception propagates out of `broadcastToRoom`
(to be contained only by the server's per-message catch). -/
theorem broadcast_skips_and_aborts {α : Type} (rm : RoomManager)
    (readyState : Nat → Nat) (sendFails : Nat → Bool) (rid : String)
    (msg : α) (ex : Option Nat) (room : Room)
    (hroom : mapGet rm.rooms rid = some room) :
    ((∀ p ∈ room.users, sendFails p.2.ws = false) →
      rm.broadcastToRoom readyState sendFails (some rid) msg ex
        = (eligibleSends readyState ex msg room.users, false)) ∧
    (∀ pre k u post, room.users = pre ++ (k, u) :: post →
      (∀ p ∈ pre, sendFails p.2.ws = false) →
      some k ≠ ex → readyState u.ws = 1 → sendFails u.ws = true →
      rm.broadcastToRoom readyState sendFails (some rid) msg ex
        = (eligibleSends readyState ex msg pre, true)) := by
  constructor
  · intro h
    simp only [RoomManager.broadcastToRoom, hroom]
    exact sendAll_no_failure readyState sendFails ex msg room.users h
  · intro pre k u post hsplit hpre hex hopen hfail
    simp only [RoomManager.broadcastToRoom, hroom, hsplit]
    exact sendAll_failure_aborts readyState sendFails ex msg pre post k u
      hpre hex hopen hfail

/-- Witness for C7's amended statement at the concrete two-participant room. -/
theorem broadcast_skips_and_aborts_witness :
    mapGet c7rm.rooms "r" = some c7room ∧
    (((∀ p ∈ c7room.users, c7fails p.2.ws = false) →
      c7rm.broadcastToRoom allOpen c7fails (some "r") ServerMsg.clearCanvas none
        = (eligibleSends allOpen none ServerMsg.clearCanvas c7room.users, false)) ∧
    (∀ pre k u post, c7room.users = pre ++ (k, u) :: post →
      (∀ p ∈ pre, c7fails p.2.ws = false) →
      some k ≠ none → allOpen u.ws = 1 → c7fails u.ws = true →
      c7rm.broadcastToRoom allOpen c7fails (some "r") ServerMsg.clearCanvas none
        = (eligibleSends allOpen none ServerMsg.clearCanvas pre, true))) :=
  ⟨rfl, broadcast_skips_and_aborts c7rm allOpen c7fails "r"
    ServerMsg.clearCanvas none c7room rfl⟩

/-- Claim C8: removing a room's single remaining participant returns null and
deletes the room, and a subsequent join with the same key builds a fresh room:
the re-joiner gets id 1, the room's visible stroke list is empty, and the id
counter has restarted (`nextUserId = 2` after handing out id 1). -/
theorem empty_room_teardown (rm : RoomManager) (rid : String) (uid : Nat)
    (u : User) (room : Room)
    (hnd : (rm.rooms.map Prod.fst).Nodup)
    (hroom : mapGet rm.rooms rid = some room)
    (husers : room.users = [(uid, u)]) :
    (rm.removeUser rid uid).1 = none ∧
    mapGet (rm.removeUser rid uid).2.rooms rid = none ∧
    ∀ ws uname,
      ((rm.removeUser rid uid).2.addUser rid ws (some uname)).1.1.id = 1 ∧
      ((rm.removeUser rid uid).2.addUser rid ws (some uname)).1.2.drawingState.getVisibleOperations = [] ∧
      ((rm.removeUser rid uid).2.addUser rid ws (some uname)).1.2.nextUserId = 2 := by
  have hdel : mapDelete room.users uid = [] := by
    rw [husers]; simp [mapDelete]
  have hrem : rm.removeUser rid uid
      = (none, ⟨mapDelete rm.rooms rid, rm.colorIndex⟩) := by
    simp [RoomManager.removeUser, hroom, hdel]
  have hgone : mapGet (mapDelete rm.rooms rid) rid = none :=
    mapGet_mapDelete_self rm.rooms rid hnd
  refine ⟨by rw [hrem], by rw [hrem]; exact hgone, fun ws uname => ?_⟩
  rw [hrem]
  simp [RoomManager.addUser, RoomManager.getOrCreateRoom, hgone,
    DrawingState.init, DrawingState.getVisibleOperations, jsSliceTo]

def c8room : Room := ⟨"r", [(7, ⟨7, "A", "#FF6B6B", 1, none⟩)], ⟨[endOp], 0⟩, 8⟩

def c8rm : RoomManager := ⟨[("r", c8room)], 5⟩

/-- Witness for C8: a one-participant room with one committed stroke is torn
down, and a rejoin starts from scratch. -/
theorem empty_room_teardown_witness :
    ((c8rm.rooms.map Prod.fst).Nodup ∧
     mapGet c8rm.rooms "r" = some c8room ∧
     c8room.users = [(7, ⟨7, "A", "#FF6B6B", 1, none⟩)]) ∧
    ((c8rm.removeUser "r" 7).1 = none ∧
     mapGet (c8rm.removeUser "r" 7).2.rooms "r" = none ∧
     ∀ ws uname,
       ((c8rm.removeUser "r" 7).2.addUser "r" ws (some uname)).1.1.id = 1 ∧
       ((c8rm.removeUser "r" 7).2.addUser "r" ws (some uname)).1.2.drawingState.getVisibleOperations = [] ∧
       ((c8rm.removeUser "r" 7).2.addUser "r" ws (some uname)).1.2.nextUserId = 2) :=
  ⟨⟨by decide, rfl, rfl⟩,
   empty_room_teardown c8rm "r" 7 ⟨7, "A", "#FF6B6B", 1, none⟩ c8room
     (by decide) rfl rfl⟩

/-! ## Delivery counting for C9 -/

/-- How many of the recorded sends went to socket `w`. -/
def sendsTo (sends : List (Nat × ServerMsg)) (w : Nat) : Nat :=
  (sends.filter (fun p => p.1 == w)).length

theorem sendsTo_append (a b : List (Nat × ServerMsg)) (w : Nat) :
    sendsTo (a ++ b) w = sendsTo a w + sendsTo b w := by
  simp [sendsTo, List.filter_append]

theorem sendsTo_cons (p : Nat × ServerMsg) (rest : List (Nat × ServerMsg))
    (w : Nat) :
    sendsTo (p :: rest) w = (if p.1 = w then 1 else 0) + sendsTo rest w := by
  simp only [sendsTo, List.filter_cons]
  by_cases h : p.1 = w
  · simp [h, Nat.add_comm]
  · simp [h]

theorem sendAll_noFail {α : Type} (readyState : Nat → Nat) (ex : Option Nat)
    (msg : α) (users : List (Nat × User)) :
    sendAll readyState noFail ex msg users
      = (eligibleSends readyState ex msg users, false) :=
  sendAll_no_failure readyState noFail ex msg users (fun _ _ => rfl)

theorem sendsTo_eligibleSends_eq (readyState : Nat → Nat) (ex : Option Nat)
    (m : ServerMsg) (w : Nat) (users : List (Nat × User)) :
    sendsTo (eligibleSends readyState ex m users) w
      = (users.filter (fun p =>
          decide (some p.1 ≠ ex ∧ readyState p.2.ws = 1) && (p.2.ws == w))).length := by
  induction users with
  | nil => rfl
  | cons hd t ih =>
    simp only [eligibleSends] at ih ⊢
    rw [List.filter_cons]
    by_cases hc : some hd.1 ≠ ex ∧ readyState hd.2.ws = 1
    · rw [if_pos (by simp [hc])]
      rw [List.map_cons, sendsTo_cons, ih, List.filter_cons]
      by_cases hw : hd.2.ws = w
      · rw [if_pos (show ((hd.2.ws, m) : Nat × ServerMsg).1 = w from hw)]
        rw [if_pos (show (decide (some hd.1 ≠ ex ∧ readyState hd.2.ws = 1)
            && (hd.2.ws == w)) = true by simp [hc.1, hw, hw ▸ hc.2])]
        rw [List.length_cons]
        omega
      · rw [if_neg (show ¬((hd.2.ws, m) : Nat × ServerMsg).1 = w from hw)]
        rw [if_neg (show ¬(decide (some hd.1 ≠ ex ∧ readyState hd.2.ws = 1)
            && (hd.2.ws == w)) = true by simp [hw])]
        omega
    · rw [if_neg (by simp [hc])]
      rw [ih, List.filter_cons]
      rw [if_neg (by simp [hc])]

theorem length_filter_eq_one_of {α : Type} (l : List α) (f : α → Bool) (a : α)
    (ha : a ∈ l) (hfa : f a = true)
    (huniq : ∀ b ∈ l, f b = true → b = a) (hnd : l.Nodup) :
    (l.filter f).length = 1 := by
  induction l with
  | nil => simp at ha
  | cons hd t ih =>
    obtain ⟨hhd, hndt⟩ := List.nodup_cons.mp hnd
    rw [List.filter_cons]
    rcases List.mem_cons.mp ha with rfl | hat
    · rw [if_pos hfa]
      have hzero : t.filter f = [] := by
        rw [List.filter_eq_nil_iff]
        intro b hb hfb
        have hba : b = a := huniq b (List.mem_cons_of_mem _ hb) hfb
        subst hba
        exact hhd hb
      simp [hzero]
    · have hne : f hd = false := by
        cases hfd : f hd with
        | false => rfl
        | true =>
          have heq : hd = a := huniq hd (List.mem_cons_self _ _) hfd
          subst heq
          exact absurd hat hhd
      rw [if_neg (by simp [hne])]
      exact ih hat (fun b hb hfb => huniq b (List.mem_cons_of_mem _ hb) hfb) hndt

theorem counts_broadcast_plus_direct (readyState : Nat → Nat) (m : ServerMsg)
    (users : List (Nat × User)) (ws uid : Nat) (u : User)
    (hu : mapGet users uid = some u) (hws : u.ws = ws) (hopen : readyState ws = 1)
    (hkeys : (users.map Prod.fst).Nodup)
    (hdist : ∀ p ∈ users, ∀ q ∈ users, p.2.ws = q.2.ws → p.1 = q.1) :
    sendsTo (eligibleSends readyState none m users ++ [(ws, m)]) ws = 2 ∧
    ∀ p ∈ users, p.2.ws ≠ ws → readyState p.2.ws = 1 →
      sendsTo (eligibleSends readyState none m users ++ [(ws, m)]) p.2.ws = 1 := by
  have hnd : users.Nodup := List.Nodup.of_map Prod.fst hkeys
  have hmem : (uid, u) ∈ users := mapGet_mem users uid u hu
  have huniq : ∀ p ∈ users, ∀ q ∈ users, p.2.ws = q.2.ws → p = q := by
    intro p hp q hq hpq
    exact List.inj_on_of_nodup_map hkeys hp hq (hdist p hp q hq hpq)
  constructor
  · rw [sendsTo_append]
    have h1 : sendsTo (eligibleSends readyState none m users) ws = 1 := by
      rw [sendsTo_eligibleSends_eq]
      apply length_filter_eq_one_of _ _ (uid, u) hmem
      · simp [hws, hopen]
      · intro b hb hfb
        simp only [Bool.and_eq_true, beq_iff_eq] at hfb
        exact huniq b hb (uid, u) hmem (by rw [hfb.2, hws])
      · exact hnd
    have h2 : sendsTo [(ws, m)] ws = 1 := by simp [sendsTo]
    omega
  · intro p hp hpws hpopen
    rw [sendsTo_append]
    have h1 : sendsTo (eligibleSends readyState none m users) p.2.ws = 1 := by
      rw [sendsTo_eligibleSends_eq]
      apply length_filter_eq_one_of _ _ p hp
      · simp [hpopen]
      · intro b hb hfb
        simp only [Bool.and_eq_true, beq_iff_eq] at hfb
        exact huniq b hb p hp hfb.2
      · exact hnd
    have h2 : sendsTo [(ws, m)] p.2.ws = 0 := by
      have hne : ws ≠ p.2.ws := fun h => hpws h.symm
      simp [sendsTo, hne]
    omega

/-- Claim C9: a successful `undo`, `redo` or `clear` from a joined participant
on an open socket is delivered to the requester exactly twice (once through
the excludeless room broadcast, once through the extra direct send) and to
every other open participant exactly once. -/
theorem state_message_double_delivery (readyState : Nat → Nat)
    (rm : RoomManager) (ws now : Nat) (rid : String) (uid : Nat) (room : Room)
    (u : User) (msg : ClientMsg)
    (hmsg : msg = .undo ∨ msg = .redo ∨ msg = .clear)
    (hroom : mapGet rm.rooms rid = some room)
    (hu : mapGet room.users uid = some u)
    (hws : u.ws = ws)
    (hopen : readyState ws = 1)
    (hkeys : (room.users.map Prod.fst).Nodup)
    (hdist : ∀ p ∈ room.users, ∀ q ∈ room.users, p.2.ws = q.2.ws → p.1 = q.1)
    (hundo : msg = .undo → 0 ≤ room.drawingState.currentIndex)
    (hredo : msg = .redo → room.drawingState.currentIndex
      < (room.drawingState.operations.length : Int) - 1) :
    sendsTo (handleMessage readyState rm ⟨some uid, some rid⟩ ws msg now).2.2 ws = 2 ∧
    ∀ p ∈ room.users, p.2.ws ≠ ws → readyState p.2.ws = 1 →
      sendsTo (handleMessage readyState rm ⟨some uid, some rid⟩ ws msg now).2.2 p.2.ws = 1 := by
  have hshape : ∃ m, (handleMessage readyState rm ⟨some uid, some rid⟩ ws msg now).2.2
      = eligibleSends readyState none m room.users ++ [(ws, m)] := by
    rcases hmsg with rfl | rfl | rfl
    · have hci := hundo rfl
      refine ⟨ServerMsg.undoState (room.drawingState.currentIndex - 1)
        (DrawingState.getVisibleOperations
          ⟨room.drawingState.operations, room.drawingState.currentIndex - 1⟩), ?_⟩
      simp [handleMessage, hroom, DrawingState.undo, hci,
        RoomManager.broadcastToRoom, mapGet_mapSet_self, sendAll_noFail]
    · have hci := hredo rfl
      refine ⟨ServerMsg.redoState (room.drawingState.currentIndex + 1)
        (DrawingState.getVisibleOperations
          ⟨room.drawingState.operations, room.drawingState.currentIndex + 1⟩), ?_⟩
      simp [handleMessage, hroom, DrawingState.redo, hci,
        RoomManager.broadcastToRoom, mapGet_mapSet_self, sendAll_noFail]
    · refine ⟨ServerMsg.clearCanvas, ?_⟩
      simp [handleMessage, hroom, RoomManager.broadcastToRoom,
        mapGet_mapSet_self, sendAll_noFail]
  obtain ⟨m, hm⟩ := hshape
  rw [hm]
  exact counts_broadcast_plus_direct readyState m room.users ws uid u hu hws
    hopen hkeys hdist

def c9u1 : User := ⟨1, "A", "#FF6B6B", 10, none⟩

def c9u2 : User := ⟨2, "B", "#4ECDC4", 20, none⟩

def c9room : Room := ⟨"r", [(1, c9u1), (2, c9u2)], ⟨[endOp], 0⟩, 3⟩

def c9rm : RoomManager := ⟨[("r", c9room)], 2⟩

/-- Witness for C9: an `undo` in a two-participant room; the requester's
socket 10 is served twice, the other open socket 20 once. -/
theorem state_message_double_delivery_witness :
    ((ClientMsg.undo = ClientMsg.undo ∨ ClientMsg.undo = ClientMsg.redo ∨
        ClientMsg.undo = ClientMsg.clear) ∧
     mapGet c9rm.rooms "r" = some c9room ∧
     mapGet c9room.users 1 = some c9u1 ∧
     c9u1.ws = 10 ∧ allOpen 10 = 1 ∧
     (c9room.users.map Prod.fst).Nodup ∧
     (∀ p ∈ c9room.users, ∀ q ∈ c9room.users, p.2.ws = q.2.ws → p.1 = q.1) ∧
     (ClientMsg.undo = ClientMsg.undo → 0 ≤ c9room.drawingState.currentIndex) ∧
     (ClientMsg.undo = ClientMsg.redo → c9room.drawingState.currentIndex
        < (c9room.drawingState.operations.length : Int) - 1)) ∧
    (sendsTo (handleMessage allOpen c9rm ⟨some 1, some "r"⟩ 10 .undo 0).2.2 10 = 2 ∧
     ∀ p ∈ c9room.users, p.2.ws ≠ 10 → allOpen p.2.ws = 1 →
       sendsTo (handleMessage allOpen c9rm ⟨some 1, some "r"⟩ 10 .undo 0).2.2 p.2.ws = 1) :=
  ⟨⟨Or.inl rfl, rfl, rfl, rfl, rfl, by decide, by decide, by decide, by decide⟩,
   state_message_double_delivery allOpen c9rm 10 0 "r" 1 c9room c9u1 .undo
     (Or.inl rfl) rfl rfl rfl rfl (by decide) (by decide) (by decide) (by decide)⟩

/-! ## Second joins and stale memberships (C10) -/

theorem getOrCreateRoom_colorIndex (rm : RoomManager) (roomId : String) :
    (rm.getOrCreateRoom roomId).2.colorIndex = rm.colorIndex := by
  cases h : mapGet rm.rooms roomId <;>
    simp [RoomManager.getOrCreateRoom, h]

theorem getOrCreateRoom_mapGet_ne (rm : RoomManager) (roomId k : String)
    (hne : roomId ≠ k) :
    mapGet (rm.getOrCreateRoom roomId).2.rooms k = mapGet rm.rooms k := by
  cases h : mapGet rm.rooms roomId with
  | some r => simp [RoomManager.getOrCreateRoom, h]
  | none => simp [RoomManager.getOrCreateRoom, h, mapGet_mapSet_ne _ _ _ _ hne]

/-- What the `join` case does to the manager and the connection state, given
the room `getOrCreateRoom` produces. -/
theorem handleMessage_join_eq (readyState : Nat → Nat) (rm : RoomManager)
    (conn : ConnState) (ws now : Nat) (r2 uname : String)
    (hr2 : r2 ≠ "") (huname : uname ≠ "") (room2 : Room) (rmg : RoomManager)
    (hg : rm.getOrCreateRoom r2 = (room2, rmg)) :
    (handleMessage readyState rm conn ws (.join (some r2) (some uname)) now).1
      = ⟨mapSet rmg.rooms r2
          { room2 with
            users := mapSet room2.users room2.nextUserId
              ⟨room2.nextUserId, uname,
               userColors.getD (rmg.colorIndex % userColors.length) "", ws, none⟩,
            nextUserId := room2.nextUserId + 1 },
          rmg.colorIndex + 1⟩ ∧
    (handleMessage readyState rm conn ws (.join (some r2) (some uname)) now).2.1
      = ⟨some room2.nextUserId, some r2⟩ := by
  constructor <;>
    simp [handleMessage, hr2, RoomManager.addUser, hg, defaultedName, huname]

/-- Claim C10: a `join` is accepted on an already-joined connection: it
registers a brand-new participant in the target room (next id of that room,
next process-wide palette color) without removing the connection's previous
participant entry, and the close handler then removes only this most recent
membership, so the earlier room still holds the stale entry of the closed
connection. -/
theorem second_join_leaves_stale_membership (readyState : Nat → Nat)
    (rm : RoomManager) (ws now : Nat) (uid : Nat) (r1 r2 uname : String)
    (u : User) (room1 : Room)
    (hroom1 : mapGet rm.rooms r1 = some room1)
    (hu : mapGet room1.users uid = some u)
    (hr2 : r2 ≠ "")
    (huname : uname ≠ "")
    (hfresh : r2 = r1 → uid ≠ room1.nextUserId) :
    (handleMessage readyState rm ⟨some uid, some r1⟩ ws
        (.join (some r2) (some uname)) now).2.1
      = ⟨some (rm.getOrCreateRoom r2).1.nextUserId, some r2⟩ ∧
    (∃ room2', mapGet (handleMessage readyState rm ⟨some uid, some r1⟩ ws
        (.join (some r2) (some uname)) now).1.rooms r2 = some room2' ∧
      mapGet room2'.users (rm.getOrCreateRoom r2).1.nextUserId
        = some ⟨(rm.getOrCreateRoom r2).1.nextUserId, uname,
            userColors.getD (rm.colorIndex % userColors.length) "", ws, none⟩) ∧
    (handleMessage readyState rm ⟨some uid, some r1⟩ ws
        (.join (some r2) (some uname)) now).1.colorIndex = rm.colorIndex + 1 ∧
    (∃ room1', mapGet (handleMessage readyState rm ⟨some uid, some r1⟩ ws
        (.join (some r2) (some uname)) now).1.rooms r1 = some room1' ∧
      mapGet room1'.users uid = some u) ∧
    (∃ room1'', mapGet (handleClose readyState
        (handleMessage readyState rm ⟨some uid, some r1⟩ ws
          (.join (some r2) (some uname)) now).1
        (handleMessage readyState rm ⟨some uid, some r1⟩ ws
          (.join (some r2) (some uname)) now).2.1).1.rooms r1 = some room1'' ∧
      mapGet room1''.users uid = some u) := by
  by_cases hcase : r2 = r1
  · subst hcase
    have hg : rm.getOrCreateRoom r2 = (room1, rm) := by
      simp [RoomManager.getOrCreateRoom, hroom1]
    obtain ⟨hA1, hA2⟩ := handleMessage_join_eq readyState rm ⟨some uid, some r2⟩
      ws now r2 uname hr2 huname room1 rm hg
    have hne : room1.nextUserId ≠ uid := (hfresh rfl).symm
    have hg1 : (rm.getOrCreateRoom r2).1 = room1 := by rw [hg]
    set newUser : User := ⟨room1.nextUserId, uname,
      userColors.getD (rm.colorIndex % userColors.length) "", ws, none⟩ with hnewUser
    set room2' : Room := { room1 with
      users := mapSet room1.users room1.nextUserId newUser,
      nextUserId := room1.nextUserId + 1 } with hroom2'
    have hstale : mapGet room2'.users uid = some u := by
      rw [hroom2']
      show mapGet (mapSet room1.users room1.nextUserId newUser) uid = some u
      rw [mapGet_mapSet_ne _ _ _ _ hne]
      exact hu
    refine ⟨by rw [hA2, hg1], ?_, by rw [hA1], ?_, ?_⟩
    · refine ⟨room2', ?_, ?_⟩
      · rw [hA1]
        exact mapGet_mapSet_self _ _ _
      · rw [hg1, hroom2']
        show mapGet (mapSet room1.users room1.nextUserId newUser)
          room1.nextUserId = some newUser
        exact mapGet_mapSet_self _ _ _
    · exact ⟨room2', by rw [hA1]; exact mapGet_mapSet_self _ _ _, hstale⟩
    · rw [hA1, hA2]
      have hlook : mapGet (mapSet rm.rooms r2 room2') r2 = some room2' :=
        mapGet_mapSet_self _ _ _
      have hdel : mapGet (mapDelete room2'.users room1.nextUserId) uid = some u := by
        rw [mapGet_mapDelete_ne _ _ _ hne]
        exact hstale
      have hnonempty : (mapDelete room2'.users room1.nextUserId).length ≠ 0 := by
        intro hzero
        have := mapGet_some_ne_nil _ _ _ hdel
        exact this (List.length_eq_zero.mp hzero)
      refine ⟨{ room2' with users := mapDelete room2'.users room1.nextUserId },
        ?_, hdel⟩
      simp only [handleClose, RoomManager.removeUser, hlook, hnonempty,
        if_neg hnonempty]
      exact mapGet_mapSet_self _ _ _
  · have hg : rm.getOrCreateRoom r2
        = ((rm.getOrCreateRoom r2).1, (rm.getOrCreateRoom r2).2) := rfl
    obtain ⟨hA1, hA2⟩ := handleMessage_join_eq readyState rm ⟨some uid, some r1⟩
      ws now r2 uname hr2 huname (rm.getOrCreateRoom r2).1
      (rm.getOrCreateRoom r2).2 hg
    have hci : (rm.getOrCreateRoom r2).2.colorIndex = rm.colorIndex :=
      getOrCreateRoom_colorIndex rm r2
    have hrmg1 : mapGet (rm.getOrCreateRoom r2).2.rooms r1 = some room1 := by
      rw [getOrCreateRoom_mapGet_ne rm r2 r1 hcase]
      exact hroom1
    set room2 : Room := (rm.getOrCreateRoom r2).1 with hroomdef
    set newUser : User := ⟨room2.nextUserId, uname,
      userColors.getD ((rm.getOrCreateRoom r2).2.colorIndex % userColors.length) "",
      ws, none⟩ with hnewUser
    set room2' : Room := { room2 with
      users := mapSet room2.users room2.nextUserId newUser,
      nextUserId := room2.nextUserId + 1 } with hroom2'
    refine ⟨hA2, ?_, by rw [hA1]; exact congrArg (· + 1) hci, ?_, ?_⟩
    · refine ⟨room2', by rw [hA1]; exact mapGet_mapSet_self _ _ _, ?_⟩
      have hnu : newUser = ⟨room2.nextUserId, uname,
          userColors.getD (rm.colorIndex % userColors.length) "", ws, none⟩ := by
        rw [hnewUser, hci]
      rw [← hnu, hroom2']
      exact mapGet_mapSet_self _ _ _
    · refine ⟨room1, ?_, hu⟩
      rw [hA1]
      show mapGet (mapSet (rm.getOrCreateRoom r2).2.rooms r2 room2') r1 = some room1
      rw [mapGet_mapSet_ne _ _ _ _ hcase]
      exact hrmg1
    · rw [hA1, hA2]
      have hlook : mapGet (mapSet (rm.getOrCreateRoom r2).2.rooms r2 room2') r2
          = some room2' := mapGet_mapSet_self _ _ _
      have hlook1 : mapGet (mapSet (rm.getOrCreateRoom r2).2.rooms r2 room2') r1
          = some room1 := by
        rw [mapGet_mapSet_ne _ _ _ _ hcase]
        exact hrmg1
      by_cases hz : (mapDelete room2'.users room2.nextUserId).length = 0
      · refine ⟨room1, ?_, hu⟩
        simp only [handleClose, RoomManager.removeUser, hlook, if_pos hz]
        rw [mapGet_mapDelete_ne _ _ _ hcase]
        exact hlook1
      · refine ⟨room1, ?_, hu⟩
        simp only [handleClose, RoomManager.removeUser, hlook, if_neg hz]
        rw [mapGet_mapSet_ne _ _ _ _ hcase]
        exact hlook1

def c10u : User := ⟨1, "A", "#FF6B6B", 1, none⟩

def c10room : Room := ⟨"a", [(1, c10u)], DrawingState.init, 2⟩

def c10rm : RoomManager := ⟨[("a", c10room)], 1⟩

/-- Witness for C10: the connection joined to room "a" joins room "b" and then
closes; room "a" still holds its participant entry afterwards. -/
theorem second_join_leaves_stale_membership_witness :
    (mapGet c10rm.rooms "a" = some c10room ∧
     mapGet c10room.users 1 = some c10u ∧
     "b" ≠ "" ∧ "Z" ≠ "" ∧ ("b" = "a" → 1 ≠ c10room.nextUserId)) ∧
    ((handleMessage allOpen c10rm ⟨some 1, some "a"⟩ 1
        (.join (some "b") (some "Z")) 0).2.1
      = ⟨some (c10rm.getOrCreateRoom "b").1.nextUserId, some "b"⟩ ∧
    (∃ room2', mapGet (handleMessage allOpen c10rm ⟨some 1, some "a"⟩ 1
        (.join (some "b") (some "Z")) 0).1.rooms "b" = some room2' ∧
      mapGet room2'.users (c10rm.getOrCreateRoom "b").1.nextUserId
        = some ⟨(c10rm.getOrCreateRoom "b").1.nextUserId, "Z",
            userColors.getD (c10rm.colorIndex % userColors.length) "", 1, none⟩) ∧
    (handleMessage allOpen c10rm ⟨some 1, some "a"⟩ 1
        (.join (some "b") (some "Z")) 0).1.colorIndex = c10rm.colorIndex + 1 ∧
    (∃ room1', mapGet (handleMessage allOpen c10rm ⟨some 1, some "a"⟩ 1
        (.join (some "b") (some "Z")) 0).1.rooms "a" = some room1' ∧
      mapGet room1'.users 1 = some c10u) ∧
    (∃ room1'', mapGet (handleClose allOpen
        (handleMessage allOpen c10rm ⟨some 1, some "a"⟩ 1
          (.join (some "b") (some "Z")) 0).1
        (handleMessage allOpen c10rm ⟨some 1, some "a"⟩ 1
          (.join (some "b") (some "Z")) 0).2.1).1.rooms "a" = some room1'' ∧
      mapGet room1''.users 1 = some c10u)) :=
  ⟨⟨rfl, rfl, by decide, by decide, by decide⟩,
   second_join_leaves_stale_membership allOpen c10rm 1 0 1 "a" "b" "Z" c10u
     c10room rfl rfl (by decide) (by decide) (by decide)⟩

end FlamCanvas
